import Mathlib

/-!
Shallow embedding of the `svi` terminal text editor (src/svi.c) and proofs
about its specification.

Modelling conventions:
* A C string (`struct str`) is represented by the list of characters that
  stand before its first NUL terminator (`s : List Char`), together with the
  `len` and `size` fields the code maintains.  Normally `s.length = len`
  (the well-formedness predicate `Str.wf`); the operations below are the
  exact translations of `str_insertchar` / `str_removechar` under this
  representation, including the path that decrements `len` without moving
  the terminator, which makes the two views diverge.
* The sparse row array (`struct buf`) is a `List (Option Str)` whose length
  plays the role of the `size` field; `none` is a NULL row pointer.
  Out-of-bounds reads (undefined behaviour in C) are modelled by
  `List.getD _ _ none`, and the out-of-bounds write that the code can reach
  (see the `ROUNDUPTO` theorems) is modelled by `List.set`, which is a
  no-op past the end of the list.
* `int` values (cursor coordinates, window size) are `Int`; conversions to
  `size_t` are modelled by `sizeT`, reduction modulo 2^64.
* Screen output (`term_print`, `term_set_cursor`, ...) has no effect on the
  editor state and is dropped; error messages that `exec_cmd` prints are
  reified in its return value.
* The file system is external: `buf_write`'s success or failure is an
  oracle parameter of `exec_cmd`, while the byte stream a successful write
  produces is modelled separately (`buf_write`).
-/

namespace Svi

/-! ### Configuration constants (src/svi.c lines 62-107) -/

def FALLBACK_WIDTH : Int := 80
def FALLBACK_HEIGHT : Int := 24
def INITIAL_BUFFER_ROWS : Nat := 32
def BUF_SIZE_INCREMENT : Nat := 16
def INITIAL_ROW_SIZE : Nat := 128
def ROW_SIZE_INCREMENT : Nat := 64
def IOV_SIZE : Nat := 32
def INITIAL_CMD_SIZE : Nat := 16
def CMD_SIZE_INCREMENT : Nat := 16

/-- `ROUNDUPTO(x, multiple)` (src/svi.c line 166):
`(((x + multiple - 1) / multiple) * multiple)`. -/
def ROUNDUPTO (x multiple : Nat) : Nat := ((x + multiple - 1) / multiple) * multiple

/-- Conversion of a C `int` to `size_t` (value modulo 2^64). -/
def sizeT (i : Int) : Nat := (i % (2 ^ 64 : Int)).toNat

/-! ### Strings (`struct str`, src/svi.c lines 201-204, 723-780) -/

/-- `struct str`: `s` is the content of the C string (the characters before
the first NUL terminator), `len` and `size` the corresponding fields. -/
structure Str where
  s : List Char
  len : Nat
  size : Nat
deriving Repr, DecidableEq

/-- Representation invariant of a `struct str` maintained by the code on
the paths that keep the terminator in step with `len`: the terminator sits
exactly at index `len`. -/
def Str.wf (str : Str) : Prop := str.s.length = str.len

instance (str : Str) : Decidable str.wf := by unfold Str.wf; infer_instance

/-- `str_insertchar` (src/svi.c lines 723-756).  Grows `size` by
`size_increment` when full, clamps `index` to `len`, then either appends
(`s[index] = c; s[index+1] = '\0'`) or shifts the tail right by one
(`memmove`) and stores `c` at `index`. -/
def str_insertchar (str : Str) (c : Char) (index size_increment : Nat) : Str :=
  let size := if str.len + 1 ≥ str.size then str.size + size_increment else str.size
  let index := if index > str.len then str.len else index
  if str.len = index then
    { s := str.s.take index ++ [c], len := str.len + 1, size := size }
  else
    { s := str.s.take index ++ [c] ++ str.s.drop index, len := str.len + 1, size := size }

/-- `str_removechar` (src/svi.c lines 758-780).  No-op on an empty string;
clamps `index` to `len`; removing the last character writes the terminator
one position earlier, otherwise the tail from `index + 1` (terminator
included) is shifted left by one.  When the clamped `index` equals `len`
the `memmove` moves zero bytes but `len` is still decremented: the
terminator no longer matches `len`. -/
def str_removechar (str : Str) (index : Nat) : Str :=
  if str.len = 0 then str
  else
    let index := if index > str.len then str.len else index
    if str.len - 1 = index then
      { str with s := str.s.take index, len := str.len - 1 }
    else
      { str with s := str.s.take index ++ str.s.drop (index + 1), len := str.len - 1 }

/-! ### The sparse row buffer (`struct buf`, src/svi.c lines 206-209, 786-936) -/

/-- `struct buf`: `b` holds one slot per allocated row (`none` = NULL row
pointer); the C `size` field is `b.length`, kept implicit. -/
structure Buf where
  b : List (Option Str)
  len : Nat
deriving Repr, DecidableEq

/-- The `size` field of a `struct buf`: the number of allocated slots. -/
def Buf.size (buf : Buf) : Nat := buf.b.length

/-- `buf_create` (src/svi.c lines 817-824): `calloc`ed array, all slots NULL. -/
def buf_create (size : Nat) : Buf := { b := List.replicate size none, len := 0 }

/-- `buf_elem_len` (src/svi.c lines 826-834): length of a row, 0 when the
row is NULL.  The C code does not bounds-check `elem`; an out-of-bounds
read is modelled as a NULL row. -/
def buf_elem_len (buf : Buf) (elem : Nat) : Nat :=
  match buf.b.getD elem none with
  | some str => str.len
  | none => 0

/-- The backward scan in `buf_resize`'s shrink path
(`while (buf->len && !buf->b[buf->len]) --buf->len;` starting from
`size - 1`, src/svi.c lines 865-867). -/
def scanBack (b : List (Option Str)) : Nat → Nat
  | 0 => 0
  | n + 1 => if (b.getD (n + 1) none).isSome then n + 1 else scanBack b n

/-- `buf_resize` (src/svi.c lines 850-881).  No-op when `size` equals the
current size.  Shrinking frees slots at index ≥ `size` (the C loop runs
`i` from `oldsize - 1` down to `size`; for `size = 0` that loop underflows
`size_t` — undefined behaviour not representable here, the model truncates)
and, when `len > size`, recomputes `len` as `size - 1` scanned backward
over NULL slots.  Growing appends NULL slots. -/
def buf_resize (buf : Buf) (size : Nat) : Buf :=
  if size = buf.size then buf
  else if size < buf.size then
    let b := buf.b.take size
    let len := if buf.len > size then scanBack b (size - 1) else buf.len
    { b := b, len := len }
  else
    { b := buf.b ++ List.replicate (size - buf.size) none, len := buf.len }

/-- `buf_char_insert` (src/svi.c lines 786-807).  Resizes to
`ROUNDUPTO(elem, BUF_SIZE_INCREMENT)` when `elem ≥ size` (note: when
`elem` is a multiple of `BUF_SIZE_INCREMENT` this leaves `elem = size` and
the C code writes `buf->b[elem]` out of bounds; the model's `List.set` is
then a no-op), extends `len` to `elem + 1`, and either creates a fresh
one-character row or delegates to `str_insertchar`. -/
def buf_char_insert (buf : Buf) (elem : Nat) (c : Char) (index : Nat) : Buf :=
  let buf := if elem ≥ buf.size then buf_resize buf (ROUNDUPTO elem BUF_SIZE_INCREMENT) else buf
  let buf := if elem ≥ buf.len then { buf with len := elem + 1 } else buf
  match buf.b.getD elem none with
  | none =>
      { buf with b := buf.b.set elem (some { s := [c], len := 1, size := INITIAL_ROW_SIZE }) }
  | some str =>
      { buf with b := buf.b.set elem (some (str_insertchar str c index ROW_SIZE_INCREMENT)) }

/-- `buf_char_remove` (src/svi.c lines 809-815). -/
def buf_char_remove (buf : Buf) (elem : Nat) (index : Nat) : Buf :=
  if elem < buf.size then
    match buf.b.getD elem none with
    | some str => { buf with b := buf.b.set elem (some (str_removechar str index)) }
    | none => buf
  else buf

/-! ### The batched file writer (src/svi.c lines 883-936) -/

/-- State of the `iovec` batch in `buf_write`: the pending segments
(`iov` entries, newest last) and the bytes already flushed to the file. -/
structure IovSt where
  segs : List (List Char)
  out : List Char
deriving Repr, DecidableEq

/-- `iov_write` (src/svi.c lines 920-936): flush the whole batch with one
`writev` when it is full, then append the new segment. -/
def iov_write (st : IovSt) (data : List Char) : IovSt :=
  let st := if st.segs.length ≥ IOV_SIZE then { segs := [], out := st.out ++ st.segs.flatten } else st
  { st with segs := st.segs ++ [data] }

/-- The bytes a present row contributes to the file: `b[i]->s` with length
`b[i]->len`. -/
def rowBytes (row : Option Str) : List Char :=
  match row with
  | some str => str.s.take str.len
  | none => []

/-- The loop of `buf_write` (src/svi.c lines 902-914): for each row index
below `len`, a present row contributes its bytes and a newline as two
segments, a NULL row contributes a single newline segment. -/
def buf_write_loop (buf : Buf) : IovSt :=
  (List.range buf.len).foldl
    (fun st i =>
      match buf.b.getD i none with
      | some str => iov_write (iov_write st (rowBytes (some str))) ['\n']
      | none => iov_write st ['\n'])
    { segs := [], out := [] }

/-- `buf_write` (src/svi.c lines 883-918), restricted to the byte stream a
successful write produces: the loop above followed by the final flush of
the remaining batch. -/
def buf_write (buf : Buf) : List Char :=
  let st := buf_write_loop buf
  st.out ++ st.segs.flatten

/-- The serialization the specification describes: rows `0 ..
logical_length` in order, each row's bytes (nothing for an absent row)
followed by exactly one newline. -/
def spec_serialize (buf : Buf) : List Char :=
  (List.range buf.len).flatMap (fun i => rowBytes (buf.b.getD i none) ++ ['\n'])

/-! ### Editor state (`struct state`, src/svi.c lines 211-228) and modes -/

inductive Mode
  | normal
  | insert
  | commandLine
deriving Repr, DecidableEq

/-- A decoded key event (`enum key` plus the `ch` payload of `KEY_CHAR`,
as consumed by the dispatchers). -/
inductive Key
  | char (c : Char)
  | esc
  | arrowUp
  | arrowDown
  | arrowRight
  | arrowLeft
  | enter
  | backspace
  | delete
deriving Repr, DecidableEq

/-- `struct state` without the transient `ev` field (the current event is
passed to the handlers as an argument) and without the window-size array,
which is split into `width = size[0]` and `height = size[1]`. -/
structure EState where
  buf : Buf
  cmd : Str
  width : Int
  height : Int
  x : Int
  y : Int
  mode : Mode
  storedx : Int
  name : Option (List Char)
  name_needs_free : Bool
  modified : Bool
  written : Bool
  done : Bool
deriving Repr, DecidableEq

/-! ### Cursor movement (src/svi.c lines 942-1017).  `term_set_cursor`
calls are screen-only and dropped. -/

/-- `cursor_up` (src/svi.c lines 942-951). -/
def cursor_up (st : EState) : EState :=
  if st.y > 0 then
    let y := st.y - 1
    let elen := buf_elem_len st.buf (sizeT y)
    let x := if sizeT st.x > elen then (elen : Int) else st.x
    { st with x := x, y := y }
  else st

/-- `cursor_down` (src/svi.c lines 953-966). -/
def cursor_down (st : EState) : EState :=
  if st.y < st.height - 2 then
    let y := st.y + 1
    let elen := buf_elem_len st.buf (sizeT y)
    let x := if sizeT st.x > elen then (elen : Int) else st.x
    { st with x := x, y := y }
  else st

/-- `cursor_right` (src/svi.c lines 968-974). -/
def cursor_right (st : EState) : EState :=
  if st.x < st.width - 1 ∧ sizeT st.x < buf_elem_len st.buf (sizeT st.y) then
    { st with x := st.x + 1 }
  else st

/-- `cursor_left` (src/svi.c lines 976-981). -/
def cursor_left (st : EState) : EState :=
  if st.x > 0 then { st with x := st.x - 1 } else st

/-- `cursor_start` (src/svi.c lines 983-988). -/
def cursor_start (st : EState) : EState := { st with x := 0 }

/-- `cursor_end` (src/svi.c lines 990-998). -/
def cursor_end (st : EState) : EState :=
  let l := buf_elem_len st.buf (sizeT st.y)
  let l := if l ≠ 0 then l - 1 else l
  { st with x := (l : Int) }

/-- `cursor_startnextrow` (src/svi.c lines 1000-1008). -/
def cursor_startnextrow (st : EState) : EState :=
  if st.y < st.height - 2 then { st with x := 0, y := st.y + 1 } else st

/-- `cursor_endpreviousrow` (src/svi.c lines 1010-1017). -/
def cursor_endpreviousrow (st : EState) : EState :=
  if st.y > 0 then
    let y := st.y - 1
    { st with x := (buf_elem_len st.buf (sizeT y) : Int), y := y }
  else st

/-! ### The colon-command interpreter (src/svi.c lines 1023-1137) -/

/-- `cmdarg` (src/svi.c lines 1023-1037): the text after the first space,
or `none` when there is no space or nothing follows it. -/
def cmdarg (cmd : List Char) : Option (List Char) :=
  match cmd.dropWhile (· ≠ ' ') with
  | [] => none
  | _ :: rest => if rest.isEmpty then none else some rest

/-- `cmdchrcmp` (src/svi.c lines 1039-1063): the command equals the
character `c`, an optional `!`, then end-of-string or a space. -/
def cmdchrcmp (cmd : List Char) (c : Char) : Bool :=
  match cmd with
  | [] => false
  | c0 :: rest =>
    c0 = c &&
      (let rest := if rest.head? = some '!' then rest.tail else rest
       rest.head? = none || rest.head? = some ' ')

/-- `cmdstrcmp` (src/svi.c lines 1065-1083): like `cmdchrcmp` but against
a string prefix (the C function returns `-1` for a match; truthiness is
what its callers use). -/
def cmdstrcmp (cmd : List Char) (s : List Char) : Bool :=
  s.isPrefixOf cmd &&
    (let rest := cmd.drop s.length
     let rest := if rest.head? = some '!' then rest.tail else rest
     rest.head? = none || rest.head? = some ' ')

/-- Outcome of an attempted `buf_write` as `exec_cmd` distinguishes it:
failure with `errno == EEXIST` (the `O_EXCL` open failed) or any other
failure. -/
inductive WriteErr
  | eexist
  | other
deriving Repr, DecidableEq

/-- The write oracle: the external file system's answer to a `buf_write`
call, as a function of the file name and the `overwrite` flag. -/
def WriteFS : Type := List Char → Bool → Except WriteErr Unit

/-- The error messages `exec_cmd` prints on the status line; `exec_cmd`
returns `-1` exactly when one of these is printed. -/
inductive CmdErr
  | bufferModified
  | fileExists
  | writeFailed
  | noFileName
deriving Repr, DecidableEq

/-- `exec_cmd` (src/svi.c lines 1085-1137).  Returns the new state plus
`some` error exactly on the `return -1` paths (`none` models returning 0,
including the unrecognized-command passthrough). -/
def exec_cmd (fs : WriteFS) (st : EState) : EState × Option CmdErr :=
  if cmdchrcmp st.cmd.s 'q' then
    if st.cmd.s.get? 1 ≠ some '!' ∧ st.modified then
      (st, some .bufferModified)
    else
      ({ st with done := true }, none)
  else if cmdchrcmp st.cmd.s 'w' || cmdstrcmp st.cmd.s ['w', 'q'] then
    let arg := cmdarg st.cmd.s
    let name := match arg with | some a => some a | none => st.name
    let bang := st.cmd.s.get? 1 = some '!' ∨
      (st.cmd.s.get? 1 = some 'q' ∧ st.cmd.s.get? 2 = some '!')
    let st := if arg.isSome ∧ st.name = none then
        { st with name := arg, name_needs_free := true }
      else st
    match name with
    | some n =>
      match fs n (bang || st.written) with
      | .error .eexist => (st, some .fileExists)
      | .error .other => (st, some .writeFailed)
      | .ok _ =>
        let st := { st with modified := false, written := true }
        if st.cmd.s.get? 1 = some 'q' then ({ st with done := true }, none)
        else (st, none)
    | none => (st, some .noFileName)
  else
    (st, none)

/-! ### The mode dispatchers (src/svi.c lines 1143-1363) -/

/-- `key_command_line` (src/svi.c lines 1143-1217). -/
def key_command_line (fs : WriteFS) (st : EState) (k : Key) : EState :=
  match k with
  | .esc =>
    { st with mode := .normal, cmd := { st.cmd with s := [], len := 0 }, x := st.storedx }
  | .arrowRight =>
    if st.x < st.width - 1 ∧ sizeT (st.x - 1) < st.cmd.len then
      { st with x := st.x + 1 }
    else st
  | .arrowLeft =>
    if st.x > 1 then { st with x := st.x - 1 } else st
  | .enter =>
    let st := (exec_cmd fs st).1
    { st with mode := .normal, cmd := { st.cmd with s := [], len := 0 }, x := st.storedx }
  | .backspace =>
    if st.x > 1 ∧ st.cmd.len ≠ 0 then
      { st with cmd := str_removechar st.cmd (sizeT (st.x - 2)), x := st.x - 1 }
    else st
  | .delete =>
    if st.cmd.len ≠ 0 then
      { st with cmd := str_removechar st.cmd (sizeT (st.x - 1)) }
    else st
  | .char c =>
    if st.x > 0 ∧ st.x < st.width - 1 then
      { st with cmd := str_insertchar st.cmd c (sizeT (st.x - 1)) CMD_SIZE_INCREMENT,
                x := st.x + 1 }
    else st
  | _ => st

/-- `key_insert` (src/svi.c lines 1219-1289). -/
def key_insert (st : EState) (k : Key) : EState :=
  match k with
  | .esc => { st with mode := .normal }
  | .arrowUp => cursor_up st
  | .arrowDown => cursor_down st
  | .arrowRight => cursor_right st
  | .arrowLeft => cursor_left st
  | .enter => cursor_startnextrow st
  | .backspace =>
    if st.x > 0 ∧ buf_elem_len st.buf (sizeT st.y) ≠ 0 then
      { st with modified := true,
                buf := buf_char_remove st.buf (sizeT st.y) (sizeT (st.x - 1)),
                x := st.x - 1 }
    else st
  | .delete =>
    if buf_elem_len st.buf (sizeT st.y) ≠ 0 then
      { st with modified := true,
                buf := buf_char_remove st.buf (sizeT st.y) (sizeT st.x) }
    else st
  | .char c =>
    if st.x < st.width - 1 then
      { st with modified := true,
                buf := buf_char_insert st.buf (sizeT st.y) c (sizeT st.x),
                x := st.x + 1 }
    else st

/-- `key_normal` (src/svi.c lines 1291-1363). -/
def key_normal (st : EState) (k : Key) : EState :=
  match k with
  | .arrowUp => cursor_up st
  | .arrowDown => cursor_down st
  | .arrowRight => cursor_right st
  | .arrowLeft => cursor_left st
  | .enter => cursor_startnextrow st
  | .backspace =>
    if st.x = 0 ∧ st.y > 0 then cursor_endpreviousrow st else cursor_left st
  | .char c =>
    if c = 'h' then cursor_left st
    else if c = 'j' then cursor_down st
    else if c = 'k' then cursor_up st
    else if c = 'l' then cursor_right st
    else if c = '0' then cursor_start st
    else if c = '$' then cursor_end st
    else if c = 'i' then { st with mode := .insert }
    else if c = 'a' then { cursor_right st with mode := .insert }
    else if c = ':' then { st with mode := .commandLine, storedx := st.x, x := 1 }
    else st
  | _ => st

/-- One iteration of the key-event branch of `run`'s main loop
(src/svi.c lines 1425-1431): dispatch on the current mode. -/
def handle_key (fs : WriteFS) (st : EState) (k : Key) : EState :=
  match st.mode with
  | .commandLine => key_command_line fs st k
  | .insert => key_insert st k
  | .normal => key_normal st k

/-- The state `run` builds before its main loop (src/svi.c lines
1371-1396), with the probed (or fallback) window size `w × h` and the
optional file name from `argv`.  The code really does set `st.cmd.size`
to `INITIAL_ROW_SIZE` even though it allocates `INITIAL_CMD_SIZE` bytes. -/
def initState (w h : Int) (name : Option (List Char)) : EState :=
  { buf := buf_create INITIAL_BUFFER_ROWS,
    cmd := { s := [], len := 0, size := INITIAL_ROW_SIZE },
    width := w, height := h, x := 0, y := 0,
    mode := .normal, storedx := 0,
    name := name, name_needs_free := false,
    modified := false, written := false, done := false }

/-- The editor state after a sequence of key events (no resize events). -/
def run_keys (fs : WriteFS) (st : EState) (keys : List Key) : EState :=
  keys.foldl (handle_key fs) st

/-! ### The key decoder (`readkey`, src/svi.c lines 393-461)

`readkey` reads raw bytes from stdin.  The C variable `c` has type `char`,
whose signedness is implementation-defined: on the common ABIs where
`char` is signed, a byte `b ≥ 0x80` is stored as `b - 256`, so the
ASCII filter `c < 0x7f` accepts it.  `chr sg b` is the integer value of
byte `b` read into a `char`, with `sg = true` for a signed `char`.

The decoder is modelled over the list of bytes currently available on
stdin.  A decoded event carries the remaining bytes; `none` means the
available bytes were exhausted without completing an event (the C loop
would then re-read with no data pending; since the return value of the
blocking-position `read` is not checked, the C code busy-loops on the
stale byte — no further event is produced from the consumed bytes, which
is what `none` captures). -/

/-- The decoder-level event: `enum key`, with the `ch` payload of
`KEY_CHAR` kept as the integer value of the C `char`. -/
inductive TermEv
  | char (c : Int)
  | esc
  | arrowUp
  | arrowDown
  | arrowRight
  | arrowLeft
  | enter
  | backspace
  | delete
deriving Repr, DecidableEq

/-- The value byte `b` has after being read into a C `char`
(`sg = true`: signed `char`, two's complement; `sg = false`: unsigned). -/
def chr (sg : Bool) (b : Nat) : Int :=
  if sg ∧ b ≥ 128 then (b : Int) - 256 else (b : Int)

/-- `readkey` (src/svi.c lines 393-461) on the available bytes.
`27 = ESC`, `91 = '['`, `51 = '3'`, `126 = '~'`, `13 = CR`, `127 = DEL`;
the uppercase letters 65-68 are the arrow-key finals. -/
def readkey (sg : Bool) : List Nat → Option (TermEv × List Nat)
  | [] => none
  | b :: rest =>
    let c := chr sg b
    if c = 27 then
      match rest with
      | [] => some (.esc, [])
      | b2 :: rest2 =>
        if chr sg b2 = 91 then
          match rest2 with
          | [] => none
          | b3 :: rest3 =>
            let c3 := chr sg b3
            if c3 = 51 then
              match rest3 with
              | [] => none
              | b4 :: rest4 =>
                if chr sg b4 = 126 then some (.delete, rest4)
                else readkey sg rest4
            else if c3 = 65 then some (.arrowUp, rest3)
            else if c3 = 66 then some (.arrowDown, rest3)
            else if c3 = 67 then some (.arrowRight, rest3)
            else if c3 = 68 then some (.arrowLeft, rest3)
            else readkey sg rest3
        else readkey sg rest2
    else if c = 13 then some (.enter, rest)
    else if c = 127 then some (.backspace, rest)
    else if c < 127 then some (.char c, rest)
    else readkey sg rest

/-! ### Observations used by the theorems -/

/-- The rendered content of a row: the text `term_print` would show — the
row's C string, blank for an absent row. -/
def rowContent (buf : Buf) (r : Nat) : List Char :=
  match buf.b.getD r none with
  | some str => str.s
  | none => []

/-- `row_length` as the editor uses it: `buf_elem_len`. -/
def rowLen (buf : Buf) (r : Nat) : Nat := buf_elem_len buf r

/-- Well-formedness of one slot of the row array: a present row satisfies
`Str.wf`. -/
def rowWF (buf : Buf) (r : Nat) : Prop :=
  match buf.b.getD r none with
  | some str => str.wf
  | none => True

instance (buf : Buf) (r : Nat) : Decidable (rowWF buf r) := by
  unfold rowWF; exact match buf.b.getD r none with
    | some str => inferInstanceAs (Decidable str.wf)
    | none => inferInstanceAs (Decidable True)

/-! ### Lemmas about the batched file writer -/

/-- One `iov_write` leaves the total byte stream (flushed bytes plus
pending segments) extended by exactly the new segment. -/
theorem iov_write_flat (st : IovSt) (d : List Char) :
    (iov_write st d).out ++ (iov_write st d).segs.flatten =
      st.out ++ st.segs.flatten ++ d := by
  unfold iov_write
  split <;> simp

/-- The write loop over any index list accumulates each row's bytes
followed by a newline, regardless of how the batch happens to flush. -/
theorem buf_write_foldl_flat (buf : Buf) (l : List Nat) (st : IovSt) :
    (l.foldl
        (fun st i =>
          match buf.b.getD i none with
          | some str => iov_write (iov_write st (rowBytes (some str))) ['\n']
          | none => iov_write st ['\n'])
        st).out ++
      (l.foldl
        (fun st i =>
          match buf.b.getD i none with
          | some str => iov_write (iov_write st (rowBytes (some str))) ['\n']
          | none => iov_write st ['\n'])
        st).segs.flatten =
    st.out ++ st.segs.flatten ++ l.flatMap (fun i => rowBytes (buf.b.getD i none) ++ ['\n']) := by
  induction l generalizing st with
  | nil => simp
  | cons i l ih =>
    simp only [List.foldl_cons, List.flatMap_cons]
    cases h : buf.b.getD i none with
    | none =>
      simp only [h]
      rw [ih, iov_write_flat]
      simp [rowBytes]
    | some str =>
      simp only [h]
      rw [ih, iov_write_flat, iov_write_flat]
      simp

/-- The document of the round-trip example: rows `["abc", "", "de"]`
(row 1 present but logically empty), logical length 3. -/
def exampleDoc : Buf :=
  { b := [some { s := ['a', 'b', 'c'], len := 3, size := INITIAL_ROW_SIZE },
          some { s := [], len := 0, size := INITIAL_ROW_SIZE },
          some { s := ['d', 'e'], len := 2, size := INITIAL_ROW_SIZE }] ++
         List.replicate 29 none,
    len := 3 }

/-- **C2.** Writing a document serializes rows `0 .. logical_length` in
order, each row's bytes (an absent row contributing nothing) followed by
exactly one newline byte, regardless of how the `iovec` batch flushes;
in particular the document `["abc", "", "de"]` yields exactly the bytes
`"abc\n\nde\n"`. -/
theorem c2_buf_write_serializes :
    (∀ buf : Buf, buf_write buf = spec_serialize buf) ∧
      buf_write exampleDoc = "abc\n\nde\n".toList := by
  constructor
  · intro buf
    unfold buf_write buf_write_loop spec_serialize
    rw [buf_write_foldl_flat]
    simp
  · decide

/-! ### The reachable-cursor invariant -/

/-- The inductive invariant of the key-event loop: the cursor and the
saved x position are nonnegative and the cursor row stays above the
reserved bottom rows that `cursor_down` / `cursor_startnextrow` guard
(`y < height - 2` before incrementing). -/
def cursorInv (st : EState) : Prop :=
  0 ≤ st.x ∧ 0 ≤ st.storedx ∧ 0 ≤ st.y ∧ st.y ≤ st.height - 2

theorem cursor_up_inv (st : EState) (h : cursorInv st) : cursorInv (cursor_up st) := by
  unfold cursorInv cursor_up at *
  split
  · dsimp only
    split <;> omega
  · exact h

theorem cursor_down_inv (st : EState) (h : cursorInv st) : cursorInv (cursor_down st) := by
  unfold cursorInv cursor_down at *
  split
  · dsimp only
    split <;> omega
  · exact h

theorem cursor_right_inv (st : EState) (h : cursorInv st) : cursorInv (cursor_right st) := by
  unfold cursorInv cursor_right at *
  split
  · dsimp only
    omega
  · exact h

theorem cursor_left_inv (st : EState) (h : cursorInv st) : cursorInv (cursor_left st) := by
  unfold cursorInv cursor_left at *
  split
  · dsimp only
    omega
  · exact h

theorem cursor_start_inv (st : EState) (h : cursorInv st) : cursorInv (cursor_start st) := by
  unfold cursorInv cursor_start at *
  dsimp only
  omega

theorem cursor_end_inv (st : EState) (h : cursorInv st) : cursorInv (cursor_end st) := by
  unfold cursorInv cursor_end at *
  dsimp only
  omega

theorem cursor_startnextrow_inv (st : EState) (h : cursorInv st) :
    cursorInv (cursor_startnextrow st) := by
  unfold cursorInv cursor_startnextrow at *
  split
  · dsimp only
    omega
  · exact h

theorem cursor_endpreviousrow_inv (st : EState) (h : cursorInv st) :
    cursorInv (cursor_endpreviousrow st) := by
  unfold cursorInv cursor_endpreviousrow at *
  split
  · dsimp only
    omega
  · exact h

/-- `exec_cmd` never touches the cursor, the saved x position, or the
window size. -/
theorem exec_cmd_frame (fs : WriteFS) (st : EState) :
    (exec_cmd fs st).1.x = st.x ∧ (exec_cmd fs st).1.y = st.y ∧
    (exec_cmd fs st).1.storedx = st.storedx ∧
    (exec_cmd fs st).1.width = st.width ∧ (exec_cmd fs st).1.height = st.height := by
  unfold exec_cmd
  dsimp only
  repeat' split
  all_goals exact ⟨rfl, rfl, rfl, rfl, rfl⟩

theorem key_command_line_inv (fs : WriteFS) (st : EState) (k : Key) (h : cursorInv st) :
    cursorInv (key_command_line fs st k) := by
  unfold cursorInv at *
  unfold key_command_line
  obtain ⟨hx, hsx, hy, hyh⟩ := h
  rcases k <;> try dsimp only
  case enter =>
    obtain ⟨hfx, hfy, hfsx, hfw, hfh⟩ := exec_cmd_frame fs st
    omega
  all_goals try omega
  all_goals split <;> (try dsimp only) <;> omega

theorem key_insert_inv (st : EState) (k : Key) (h : cursorInv st) :
    cursorInv (key_insert st k) := by
  unfold key_insert
  rcases k <;> try dsimp only
  case esc => exact h
  case arrowUp => exact cursor_up_inv st h
  case arrowDown => exact cursor_down_inv st h
  case arrowRight => exact cursor_right_inv st h
  case arrowLeft => exact cursor_left_inv st h
  case enter => exact cursor_startnextrow_inv st h
  all_goals
    unfold cursorInv at *
    obtain ⟨hx, hsx, hy, hyh⟩ := h
    split <;> (try dsimp only) <;> omega

theorem key_normal_inv (st : EState) (k : Key) (h : cursorInv st) :
    cursorInv (key_normal st k) := by
  unfold key_normal
  rcases k <;> try dsimp only
  case arrowUp => exact cursor_up_inv st h
  case arrowDown => exact cursor_down_inv st h
  case arrowRight => exact cursor_right_inv st h
  case arrowLeft => exact cursor_left_inv st h
  case enter => exact cursor_startnextrow_inv st h
  case backspace =>
    split
    · exact cursor_endpreviousrow_inv st h
    · exact cursor_left_inv st h
  case char c =>
    split
    · exact cursor_left_inv st h
    split
    · exact cursor_down_inv st h
    split
    · exact cursor_up_inv st h
    split
    · exact cursor_right_inv st h
    split
    · exact cursor_start_inv st h
    split
    · exact cursor_end_inv st h
    split
    · exact h
    split
    · exact cursor_right_inv st h
    split
    · unfold cursorInv at *
      obtain ⟨hx, hsx, hy, hyh⟩ := h
      dsimp only
      omega
    · exact h
  case esc => exact h
  case delete => exact h

theorem handle_key_inv (fs : WriteFS) (st : EState) (k : Key) (h : cursorInv st) :
    cursorInv (handle_key fs st k) := by
  unfold handle_key
  rcases hm : st.mode <;> dsimp only
  · exact key_normal_inv st k h
  · exact key_insert_inv st k h
  · exact key_command_line_inv fs st k h

theorem run_keys_inv (fs : WriteFS) (keys : List Key) (st : EState) (h : cursorInv st) :
    cursorInv (run_keys fs st keys) := by
  induction keys generalizing st with
  | nil => exact h
  | cons k keys ih =>
    exact ih (handle_key fs st k) (handle_key_inv fs st k h)

/-- No key event changes the window dimensions (only a resize event would,
and `run`'s resize branch is outside the key-event relation). -/
theorem handle_key_height (fs : WriteFS) (st : EState) (k : Key) :
    (handle_key fs st k).height = st.height := by
  obtain ⟨hfx, hfy, hfsx, hfw, hfh⟩ := exec_cmd_frame fs st
  unfold handle_key key_normal key_insert key_command_line cursor_up cursor_down
    cursor_right cursor_left cursor_start cursor_end cursor_startnextrow
    cursor_endpreviousrow
  rcases st.mode <;> rcases k <;> dsimp only <;> repeat' split
  all_goals first
    | rfl
    | omega

theorem run_keys_height (fs : WriteFS) (keys : List Key) (st : EState) :
    (run_keys fs st keys).height = st.height := by
  induction keys generalizing st with
  | nil => rfl
  | cons k keys ih =>
    rw [run_keys, List.foldl_cons, ← run_keys, ih, handle_key_height]

/-- A write oracle that always succeeds. -/
def fsOk : WriteFS := fun _ _ => .ok ()

/-- A key sequence (on a 5 × 4 terminal) reaching a state that violates the
claimed cursor bounds: move down twice (`j j`, reaching `y = height - 2`),
insert `abcd`, return to column 0, insert `abcd` again (row length 8), and
jump to the line end with `$` (reaching `x = 7 ≥ width - 1`). -/
def exCursorKeys : List Key :=
  [.char 'j', .char 'j', .char 'i',
   .char 'a', .char 'b', .char 'c', .char 'd', .esc,
   .char '0', .char 'i',
   .char 'a', .char 'b', .char 'c', .char 'd', .esc,
   .char '$']

set_option maxRecDepth 100000 in
/-- **C1, counterexample.**  On a 5 × 4 terminal the key sequence
`exCursorKeys` reaches the cursor position `(x, y) = (7, 2)`, which
violates both claimed bounds: `x < width - 1 = 4` fails and
`y ≤ height - 3 = 1` fails (`cursor_down` only reserves one bottom row,
and `$` on a row longer than the window moves `x` past the right edge). -/
theorem c1_cursor_bounds_counterexample :
    ¬ ((run_keys fsOk (initState 5 4 none) exCursorKeys).x < 5 - 1 ∧
       (run_keys fsOk (initState 5 4 none) exCursorKeys).y ≤ 4 - 3) := by
  decide

/-- **C1, amended.**  For every reachable editor state (initial state, any
key sequence, any write-oracle behaviour, terminal height at least the 2
that `run` insists on), the cursor satisfies `0 ≤ x`, and
`0 ≤ y ≤ height - 2`.  The claimed upper bounds are corrected: `y` can
reach `height - 2` (the code reserves only the last row), and `x` has no
upper bound in terms of the width at all (`$`, and vertical motion's
clamping to a row's length, can place it past the right edge). -/
theorem c1_cursor_bounds_amended (w h : Int) (name : Option (List Char))
    (fs : WriteFS) (keys : List Key) (hh : 2 ≤ h) :
    0 ≤ (run_keys fs (initState w h name) keys).x ∧
    0 ≤ (run_keys fs (initState w h name) keys).y ∧
    (run_keys fs (initState w h name) keys).y ≤ h - 2 := by
  have hinv : cursorInv (run_keys fs (initState w h name) keys) := by
    apply run_keys_inv
    refine ⟨le_refl 0, le_refl 0, le_refl 0, ?_⟩
    show (0 : Int) ≤ h - 2
    omega
  have hht : (run_keys fs (initState w h name) keys).height = h :=
    run_keys_height fs keys (initState w h name)
  obtain ⟨h1, h2, h3, h4⟩ := hinv
  exact ⟨h1, h3, by omega⟩

/-- **C1, witness.**  The amended bounds evaluated on the 5 × 4 terminal
after the concrete key sequence. -/
theorem c1_cursor_bounds_witness :
    (2 : Int) ≤ 4 ∧
      (0 ≤ (run_keys fsOk (initState 5 4 none) exCursorKeys).x ∧
       0 ≤ (run_keys fsOk (initState 5 4 none) exCursorKeys).y ∧
       (run_keys fsOk (initState 5 4 none) exCursorKeys).y ≤ 4 - 2) :=
  ⟨by norm_num, c1_cursor_bounds_amended 5 4 none fsOk exCursorKeys (by norm_num)⟩

/-! ### The colon commands `q`, `q!`, `wq`, `wq!` -/

/-- **C3.**  For `wq` and `wq!` (executed while the loop is still running,
i.e. `done` is false), the `done` flag ends up set exactly when the write
step succeeds — `exec_cmd` returns no error; on any write failure (no
file name, file exists without force, OS write error) `done` stays
false. -/
theorem c3_wq_done_iff_write_ok (fs : WriteFS) (st : EState)
    (hdone : st.done = false)
    (hcmd : st.cmd.s = ['w', 'q'] ∨ st.cmd.s = ['w', 'q', '!']) :
    ((exec_cmd fs st).1.done = true ↔ (exec_cmd fs st).2 = none) := by
  rcases hcmd with h | h
  · unfold exec_cmd
    rw [h]
    simp +decide [cmdchrcmp, cmdstrcmp, cmdarg, List.dropWhile, h]
    rcases hn : st.name with _ | n
    · simp [hdone]
    · rcases hw : fs n st.written with e | u
      · rcases e <;> simp [hw, hdone]
      · simp [hw]
  · unfold exec_cmd
    rw [h]
    simp +decide [cmdchrcmp, cmdstrcmp, cmdarg, List.dropWhile, h]
    rcases hn : st.name with _ | n
    · simp [hdone]
    · rcases hw : fs n true with e | u
      · rcases e <;> simp [hw, hdone]
      · simp [hw]

/-- A ready-made editor state with a given command string, `modified`
flag, and `done := false`, used by the witnesses below. -/
def stWithCmd (cmd : List Char) (modified : Bool) : EState :=
  { initState 80 24 (some ['f']) with
    cmd := { s := cmd, len := cmd.length, size := INITIAL_CMD_SIZE },
    modified := modified }

/-- **C3, witness.**  `wq` on an unmodified fresh state with an
always-succeeding write oracle: `done` ends true and no error is
reported. -/
theorem c3_wq_done_iff_write_ok_witness :
    ((exec_cmd fsOk (stWithCmd ['w', 'q'] false)).1.done = true ↔
      (exec_cmd fsOk (stWithCmd ['w', 'q'] false)).2 = none) :=
  c3_wq_done_iff_write_ok fsOk (stWithCmd ['w', 'q'] false) rfl (Or.inl rfl)

/-- **C4.**  `q` with `modified` set fails with the visible
"buffer modified" error and changes nothing at all (the returned state is
the input state, so `done` in particular stays as it was); `q` with
`modified` clear, and `q!` always, set `done` and report no error. -/
theorem c4_quit_modified_guard (fs : WriteFS) (st : EState) :
    (st.cmd.s = ['q'] → st.modified = true →
        exec_cmd fs st = (st, some CmdErr.bufferModified)) ∧
    ((st.cmd.s = ['q'] ∧ st.modified = false) ∨ st.cmd.s = ['q', '!'] →
        exec_cmd fs st = ({ st with done := true }, none)) := by
  constructor
  · intro h hm
    unfold exec_cmd
    rw [h]
    simp +decide [cmdchrcmp, hm]
  · rintro (⟨h, hm⟩ | h)
    · unfold exec_cmd
      rw [h]
      simp +decide [cmdchrcmp, hm]
    · unfold exec_cmd
      rw [h]
      simp +decide [cmdchrcmp]

/-- **C4, witness.**  Concretely: `q` on a modified state errors and
leaves the state untouched; `q!` on the same modified state just sets
`done`. -/
theorem c4_quit_modified_guard_witness :
    exec_cmd fsOk (stWithCmd ['q'] true) =
        (stWithCmd ['q'] true, some CmdErr.bufferModified) ∧
      exec_cmd fsOk (stWithCmd ['q', '!'] true) =
        ({ stWithCmd ['q', '!'] true with done := true }, none) :=
  ⟨(c4_quit_modified_guard fsOk (stWithCmd ['q'] true)).1 rfl rfl,
   (c4_quit_modified_guard fsOk (stWithCmd ['q', '!'] true)).2 (Or.inr rfl)⟩

/-- **C9.**  Handling any key event in Normal mode leaves the document
buffer, the `modified`, `written` and `done` flags, the command buffer
and the associated file name (and its ownership flag) unchanged — Normal
mode only moves the cursor, updates the stored x position, and switches
mode. -/
theorem c9_key_normal_frame (st : EState) (k : Key) :
    (key_normal st k).buf = st.buf ∧ (key_normal st k).modified = st.modified ∧
    (key_normal st k).written = st.written ∧ (key_normal st k).done = st.done ∧
    (key_normal st k).cmd = st.cmd ∧ (key_normal st k).name = st.name ∧
    (key_normal st k).name_needs_free = st.name_needs_free := by
  unfold key_normal cursor_up cursor_down cursor_right cursor_left cursor_start
    cursor_end cursor_startnextrow cursor_endpreviousrow
  rcases k <;> dsimp only <;> repeat' split
  all_goals exact ⟨rfl, rfl, rfl, rfl, rfl, rfl, rfl⟩

/-! ### The capacity-growth bug of `buf_char_insert` -/

/-- **C5.**  `buf_char_insert` grows the row array to
`ROUNDUPTO(elem, BUF_SIZE_INCREMENT)`, but when `elem` is itself a
multiple of `BUF_SIZE_INCREMENT` the rounded value equals `elem`, so
after the "growth" the array size is `elem`, not strictly greater:
inserting into row 32 of the freshly created 32-slot buffer leaves the
size at 32 while the logical length becomes 33 — in C the subsequent
`buf->b[32]` accesses are out of bounds (heap overflow).  Reachable on a
terminal of height ≥ 34, where the cursor reaches row 32. -/
theorem c5_roundup_capacity_bug :
    ROUNDUPTO 32 BUF_SIZE_INCREMENT = 32 ∧
      (buf_char_insert (buf_create INITIAL_BUFFER_ROWS) 32 'a' 0).size = 32 ∧
      (buf_char_insert (buf_create INITIAL_BUFFER_ROWS) 32 'a' 0).len = 33 := by
  decide

/-! ### The shrink path of `buf_resize` -/

/-- A 4-slot buffer with rows 1 and 2 present and logical length 3. -/
def exShrinkBuf : Buf :=
  { b := [none,
          some { s := ['x'], len := 1, size := INITIAL_ROW_SIZE },
          some { s := ['y'], len := 1, size := INITIAL_ROW_SIZE },
          none],
    len := 3 }

/-- **C6.**  Resizing `exShrinkBuf` down to 2 slots frees rows ≥ 2 but
sets the logical length to 1 — the index of the highest remaining present
row — not to 2, its index plus one as the claim states: the backward scan
starts at `size - 1` and stops *on* the first present slot.  Row 1 is
still present yet now lies outside the `0 .. len` range that `buf_write`
serializes and `buf_free` releases. -/
theorem c6_resize_down_length_bug :
    (buf_resize exShrinkBuf 2).len = 1 ∧
      ((buf_resize exShrinkBuf 2).b.getD 1 none).isSome = true := by
  decide

/-! ### High-bit input bytes in `readkey` -/

/-- **C8.**  On the common ABIs where C `char` is signed (x86-64 among
them), the filter `c < 0x7f` in `readkey` accepts every byte ≥ 0x80,
because the byte is sign-extended to a negative value: byte `0x80`
produces a `KEY_CHAR` event carrying `-128` instead of being ignored,
contradicting the code's own "currently only ASCII is supported"
comment and the specification. -/
theorem c8_highbit_byte_not_ignored :
    readkey true [0x80] = some (TermEv.char (-128), []) := by
  decide

/-- Under the unsigned-`char` reading of the same code, the claimed
behaviour does hold: a byte ≥ 0x80 outside the recognized sequences
produces no event and decoding restarts at the next byte. -/
theorem readkey_unsigned_skips_highbit (b : Nat) (rest : List Nat)
    (hb : 128 ≤ b) (hb' : b < 256) :
    readkey false (b :: rest) = readkey false rest := by
  have hb0 : chr false b = (b : Int) := by simp [chr]
  conv_lhs => rw [readkey.eq_def]
  simp only [hb0]
  rw [if_neg (by omega), if_neg (by omega), if_neg (by omega), if_neg (by omega)]

/-! ### Insert / remove round trip on a row -/

theorem getD_set_self (l : List (Option Str)) (n : Nat) (v : Option Str)
    (h : n < l.length) : (l.set n v).getD n none = v := by
  simp [List.getD, List.getElem?_set_self h]

/-- Round trip at the string level: inserting `c` at a position `i ≤ len`
of a well-formed string and then removing at `i` restores both the
content and the length. -/
theorem str_insert_remove_id (s : Str) (c : Char) (i inc : Nat)
    (hwf : s.wf) (hi : i ≤ s.len) :
    (str_removechar (str_insertchar s c i inc) i).s = s.s ∧
    (str_removechar (str_insertchar s c i inc) i).len = s.len := by
  unfold Str.wf at hwf
  have hA : (s.s.take i).length = i := by
    simp [List.length_take]
    omega
  unfold str_insertchar
  dsimp only
  rw [if_neg (by omega : ¬ i > s.len)]
  by_cases hlen : s.len = i
  · rw [if_pos hlen]
    unfold str_removechar
    dsimp only
    rw [if_neg (by omega : ¬ s.len + 1 = 0), if_neg (by omega : ¬ i > s.len + 1),
      if_pos (by omega : s.len + 1 - 1 = i)]
    have ht : s.s.take i = s.s := List.take_of_length_le (by omega)
    refine ⟨?_, by dsimp only; omega⟩
    dsimp only
    rw [ht]
    exact List.take_left' (by omega)
  · rw [if_neg hlen]
    unfold str_removechar
    dsimp only
    rw [if_neg (by omega : ¬ s.len + 1 = 0), if_neg (by omega : ¬ i > s.len + 1),
      if_neg (by omega : ¬ s.len + 1 - 1 = i)]
    refine ⟨?_, by dsimp only; omega⟩
    dsimp only
    rw [List.append_assoc, List.take_left' hA, ← List.append_assoc,
      List.drop_left' (by simp [hA]), List.take_append_drop]

/-- The row array after `buf_char_insert` into an in-bounds absent slot:
the slot receives the fresh one-character row. -/
theorem buf_char_insert_b_absent (buf : Buf) (r : Nat) (ch : Char) (i : Nat)
    (hr : r < buf.size) (hb : buf.b.getD r none = none) :
    (buf_char_insert buf r ch i).b =
      buf.b.set r (some { s := [ch], len := 1, size := INITIAL_ROW_SIZE }) := by
  unfold buf_char_insert
  dsimp only
  rw [if_neg (by omega : ¬ r ≥ buf.size)]
  have hbb : (if r ≥ buf.len then ({ b := buf.b, len := r + 1 } : Buf) else buf).b = buf.b := by
    split <;> rfl
  rw [hbb, hb]

/-- The row array after `buf_char_insert` into an in-bounds present slot:
the slot receives the row with the character inserted. -/
theorem buf_char_insert_b_present (buf : Buf) (r : Nat) (row : Str) (ch : Char) (i : Nat)
    (hr : r < buf.size) (hb : buf.b.getD r none = some row) :
    (buf_char_insert buf r ch i).b =
      buf.b.set r (some (str_insertchar row ch i ROW_SIZE_INCREMENT)) := by
  unfold buf_char_insert
  dsimp only
  rw [if_neg (by omega : ¬ r ≥ buf.size)]
  have hbb : (if r ≥ buf.len then ({ b := buf.b, len := r + 1 } : Buf) else buf).b = buf.b := by
    split <;> rfl
  rw [hbb, hb]

/-- The row array after `buf_char_remove` on an in-bounds present slot. -/
theorem buf_char_remove_b_present (buf : Buf) (r : Nat) (row : Str) (i : Nat)
    (hr : r < buf.size) (hb : buf.b.getD r none = some row) :
    (buf_char_remove buf r i).b = buf.b.set r (some (str_removechar row i)) := by
  unfold buf_char_remove
  rw [if_pos hr, hb]

/-- A one-row document holding `"ab"`, used by the C7 counterexample and
the C10 witness. -/
def exRowBuf : Buf :=
  { b := [some { s := ['a', 'b'], len := 2, size := INITIAL_ROW_SIZE }], len := 1 }

/-- **C7, counterexample.**  On the row `"ab"` with column `c = 5` (beyond
the row length), inserting `'z'` and then removing at the same column does
*not* restore the row: the insert clamps to an append, but the remove's
clamped index equals the new length, so its `memmove` moves zero bytes and
only `len` is decremented — the row's terminated content stays `"abz"`. -/
theorem c7_insert_remove_counterexample :
    ¬ (rowContent (buf_char_remove (buf_char_insert exRowBuf 0 'z' 5) 0 5) 0 =
          rowContent exRowBuf 0 ∧
        rowLen (buf_char_remove (buf_char_insert exRowBuf 0 'z' 5) 0 5) 0 =
          rowLen exRowBuf 0) := by
  decide

/-- **C7, amended.**  For a column `c` that does not exceed the row's
current length (`0` for an absent row), inserting a character at
`(r, c)` and then removing at `(r, c)` restores the row's rendered
content and its length exactly (an absent row comes back as a present
empty row, which renders identically); for row slots inside the
allocated array (growth past the array is broken separately, see the
`ROUNDUPTO` bug) and well-formed rows.  For `c` beyond the row length
only the length is restored, not the terminated content. -/
theorem c7_insert_remove_restores (buf : Buf) (r c : Nat) (ch : Char)
    (hr : r < buf.size) (hwf : rowWF buf r) (hc : c ≤ rowLen buf r) :
    rowContent (buf_char_remove (buf_char_insert buf r ch c) r c) r = rowContent buf r ∧
    rowLen (buf_char_remove (buf_char_insert buf r ch c) r c) r = rowLen buf r := by
  unfold rowWF at hwf
  unfold rowLen buf_elem_len at hc ⊢
  unfold rowContent
  have hrb : r < buf.b.length := hr
  cases hb : buf.b.getD r none with
  | none =>
    obtain rfl : c = 0 := by
      rw [hb] at hc
      dsimp only at hc
      omega
    have h1 := buf_char_insert_b_absent buf r ch 0 hr hb
    have hsz : r < (buf_char_insert buf r ch 0).size := by
      unfold Buf.size
      rw [h1]
      simpa using hrb
    have h2 := buf_char_remove_b_present (buf_char_insert buf r ch 0) r
      { s := [ch], len := 1, size := INITIAL_ROW_SIZE } 0 hsz
      (by rw [h1]; exact getD_set_self _ _ _ hrb)
    rw [h2, h1, List.set_set]
    rw [getD_set_self _ _ _ hrb]
    exact ⟨rfl, rfl⟩
  | some row =>
    rw [hb] at hc
    rw [hb] at hwf
    dsimp only at hc hwf
    have h1 := buf_char_insert_b_present buf r row ch c hr hb
    have hsz : r < (buf_char_insert buf r ch c).size := by
      unfold Buf.size
      rw [h1]
      simpa using hrb
    have h2 := buf_char_remove_b_present (buf_char_insert buf r ch c) r
      (str_insertchar row ch c ROW_SIZE_INCREMENT) c hsz
      (by rw [h1]; exact getD_set_self _ _ _ hrb)
    rw [h2, h1, List.set_set]
    rw [getD_set_self _ _ _ hrb]
    obtain ⟨hs, hl⟩ := str_insert_remove_id row ch c ROW_SIZE_INCREMENT hwf hc
    exact ⟨hs, hl⟩

/-- **C7, witness.**  The amended round trip evaluated on the row `"ab"`
at column 1. -/
theorem c7_insert_remove_restores_witness :
    0 < exRowBuf.size ∧ rowWF exRowBuf 0 ∧ 1 ≤ rowLen exRowBuf 0 ∧
      (rowContent (buf_char_remove (buf_char_insert exRowBuf 0 'z' 1) 0 1) 0 =
          rowContent exRowBuf 0 ∧
        rowLen (buf_char_remove (buf_char_insert exRowBuf 0 'z' 1) 0 1) 0 =
          rowLen exRowBuf 0) :=
  ⟨by decide, by decide, by decide,
   c7_insert_remove_restores exRowBuf 0 1 'z' (by decide) (by decide) (by decide)⟩

/-- **C10.**  Inserting into a present, well-formed row at a column index
strictly greater than the row's length clamps the index to the length:
the character lands at the end of the row and the row's length grows by
exactly one. -/
theorem c10_insert_past_end_appends (buf : Buf) (r : Nat) (row : Str) (ch : Char)
    (idx : Nat) (hb : buf.b.getD r none = some row) (hwf : row.wf)
    (hidx : row.len < idx) :
    rowContent (buf_char_insert buf r ch idx) r = row.s ++ [ch] ∧
    rowLen (buf_char_insert buf r ch idx) r = row.len + 1 := by
  unfold Str.wf at hwf
  have hrb : r < buf.b.length := by
    by_contra hge
    rw [List.getD_eq_default] at hb
    · exact Option.noConfusion hb
    · omega
  have h1 := buf_char_insert_b_present buf r row ch idx hrb hb
  unfold rowContent rowLen buf_elem_len
  rw [h1, getD_set_self _ _ _ hrb]
  unfold str_insertchar
  dsimp only
  rw [if_pos (by omega : idx > row.len), if_pos rfl]
  dsimp only
  constructor
  · rw [List.take_of_length_le (by omega)]
  · rfl

/-- **C10, witness.**  Appending via the out-of-range column 7 on the
two-character row `"ab"`. -/
theorem c10_insert_past_end_appends_witness :
    exRowBuf.b.getD 0 none = some { s := ['a', 'b'], len := 2, size := INITIAL_ROW_SIZE } ∧
      ({ s := ['a', 'b'], len := 2, size := INITIAL_ROW_SIZE } : Str).wf ∧
      (2 : Nat) < 7 ∧
      (rowContent (buf_char_insert exRowBuf 0 'z' 7) 0 = ['a', 'b', 'z'] ∧
        rowLen (buf_char_insert exRowBuf 0 'z' 7) 0 = 3) :=
  ⟨by decide, by decide, by decide,
   c10_insert_past_end_appends exRowBuf 0
     { s := ['a', 'b'], len := 2, size := INITIAL_ROW_SIZE } 'z' 7
     (by decide) (by decide) (by decide)⟩

end Svi
